import Mathlib

/-!
Verification of the Finance3D price-grid / terrain-mesh pipeline.

This file gives a shallow embedding, over `ℚ`, of the grid-reconstruction
and mesh code of `src/components/Finance/3DChart.jsx` (the `initCharts`
pipeline of the `SurfaceChart` component and the geometry/picking code of
the `TerrainShader` component) and of `src/components/Finance/terrain.jsx`
(the synthetic terrain generator), together with proofs of the behavioural
properties stated about that code.

JavaScript numbers are modelled as exact rationals; the two IEEE sentinels
`Number.MAX_VALUE` and `Number.MIN_VALUE` are modelled by their exact
rational values, and a division whose result is not a finite number (NaN
or an infinity) is modelled by `Option.none` where that distinction
matters.
-/

namespace Finance3D

/-- Sentinel for a missing observation: `const basePrice = 0` in
`initCharts` (3DChart.jsx line 368) and `fetchAndProcessData`
(ApiTest.jsx line 238). -/
def basePrice : ℚ := 0

/-- One daily observation, as consumed by the grid builder.  `month` and
`day` come from `new Date(dayData.t).getMonth()` (always `0..11`) and
`getDate() - 1` (always `0..30`); `price` is the close `dayData.c`, a
positive real per the data model. -/
structure Sample where
  month : Fin 12
  day : Fin 31
  price : ℚ
deriving DecidableEq

/-- A price grid: list of month rows, each a list of day cells. -/
abbrev Grid := List (List ℚ)

/-- The grid before any sample is written:
`Array(months).fill().map(() => Array(days).fill(basePrice))`. -/
def emptyGrid : Grid := List.replicate 12 (List.replicate 31 basePrice)

/-- Row `j` of a grid (`priceData[j]`); `[]` when out of range. -/
def nthRow : Grid → ℕ → List ℚ
  | [], _ => []
  | r :: _, 0 => r
  | _ :: rs, j + 1 => nthRow rs j

/-- Replace row `j` of a grid; identity when out of range. -/
def setRow : Grid → ℕ → List ℚ → Grid
  | [], _, _ => []
  | _ :: rs, 0, r => r :: rs
  | r0 :: rs, j + 1, r => r0 :: setRow rs j r

/-- Cell `d` of a row (`priceData[m][d]`); the sentinel when out of range. -/
def getEntry : List ℚ → ℕ → ℚ
  | [], _ => basePrice
  | c :: _, 0 => c
  | _ :: cs, d + 1 => getEntry cs d

/-- Replace cell `d` of a row; identity when out of range. -/
def setEntry : List ℚ → ℕ → ℚ → List ℚ
  | [], _, _ => []
  | _ :: cs, 0, v => v :: cs
  | c :: cs, d + 1, v => c :: setEntry cs d v

/-- Cell `(m, d)` of a grid. -/
def getCell (g : Grid) (m d : ℕ) : ℚ := getEntry (nthRow g m) d

/-- The assignment `priceData[m][d] = v`. -/
def setCell (g : Grid) (m d : ℕ) (v : ℚ) : Grid :=
  setRow g m (setEntry (nthRow g m) d v)

/-- Writing all samples into the empty grid:
`data.results.forEach(dayData => { ... priceData[month][day] = dayData.c })`
(3DChart.jsx lines 407-418).  Last write wins on duplicate dates. -/
def placeSamples (samples : List Sample) : Grid :=
  samples.foldl (fun g s => setCell g s.month.val s.day.val s.price) emptyGrid

/-- Forward-fill pass over one month row, carrying `lastKnownPrice`
(3DChart.jsx lines 422-431): a cell different from the sentinel updates the
carry, a sentinel cell is overwritten by the carry once one exists. -/
def forwardFillAux : Option ℚ → List ℚ → List ℚ
  | _, [] => []
  | last, c :: rest =>
    if c ≠ basePrice then c :: forwardFillAux (some c) rest
    else
      match last with
      | some p => p :: forwardFillAux (some p) rest
      | none => c :: forwardFillAux none rest

/-- Forward fill of a month row starting with `lastKnownPrice = null`. -/
def forwardFillRow (row : List ℚ) : List ℚ := forwardFillAux none row

/-- Body of the backward-fill loop (3DChart.jsx lines 434-441), including
the redundant `priceGrid[m][d] === basePrice` re-check of the source. -/
def backwardFillAux : Option ℚ → List ℚ → List ℚ
  | _, [] => []
  | last, c :: rest =>
    if c ≠ basePrice then c :: backwardFillAux (some c) rest
    else
      match last with
      | some p =>
        if c = basePrice then p :: backwardFillAux (some p) rest
        else c :: backwardFillAux (some p) rest
      | none => c :: backwardFillAux none rest

/-- Backward fill of a month row: the source scans `d = 30 .. 0` with a
fresh `lastKnownPrice = null`, which is the forward scan of the reversed
row. -/
def backwardFillRow (row : List ℚ) : List ℚ :=
  (backwardFillAux none row.reverse).reverse

/-- Both fill passes over one month row, forward first. -/
def fillMonthRow (row : List ℚ) : List ℚ := backwardFillRow (forwardFillRow row)

/-- The grid after only the forward-fill pass of every month. -/
def forwardFillGrid (g : Grid) : Grid := g.map forwardFillRow

/-- The per-month fill loop `for (let m = 0; m < months; m++) { forward;
backward }` (3DChart.jsx lines 421-442): each row is filled independently. -/
def fillMonths (g : Grid) : Grid := g.map fillMonthRow

/-- `priceData[m].some(price => price !== basePrice)` (3DChart.jsx line 447). -/
def hasData (row : List ℚ) : Bool := row.any fun p => decide (p ≠ basePrice)

/-- `Math.abs(mm - m)` on month indices. -/
def distM (a b : ℕ) : ℕ := ((a : ℤ) - (b : ℤ)).natAbs

/-- One iteration of the nearest-month search (3DChart.jsx lines 454-464):
skip `mm = m`; a month with data strictly closer than the best so far
becomes the new candidate (ties therefore stay with the lower index). -/
def nearestStep (g : Grid) (m : ℕ) (acc : ℕ × Option ℕ) (mm : ℕ) : ℕ × Option ℕ :=
  if mm = m then acc
  else if hasData (nthRow g mm) ∧ distM mm m < acc.1 then (distM mm m, some mm)
  else acc

/-- The nearest-month search, started from `minDistance = months = 12`,
`nearestMonth = -1` (modelled `none`). -/
def findNearestMonth (g : Grid) (m : ℕ) : Option ℕ :=
  ((List.range 12).foldl (nearestStep g m) (12, none)).2

/-- One iteration of the empty-month fallback loop (3DChart.jsx lines
445-473): a month with no data receives a copy of the nearest month that
has data, if any. -/
def monthFallbackStep (g : Grid) (m : ℕ) : Grid :=
  if hasData (nthRow g m) then g
  else
    match findNearestMonth g m with
    | some mm => setRow g m (nthRow g mm)
    | none => g

/-- The empty-month fallback loop over `m = 0 .. 11`, mutating the grid as
it goes (a month filled by the fallback counts as having data for later
months). -/
def monthFallback (g : Grid) : Grid := (List.range 12).foldl monthFallbackStep g

/-- The complete grid build of `initCharts`: write samples, fill each month
forward and backward, then fill empty months from their nearest neighbour. -/
def buildGrid (samples : List Sample) : Grid :=
  monthFallback (fillMonths (placeSamples samples))

/-- `Math.min` on two finite numbers. -/
def jsMin (a b : ℚ) : ℚ := if a ≤ b then a else b

/-- `Math.max` on two finite numbers. -/
def jsMax (a b : ℚ) : ℚ := if a ≤ b then b else a

/-- Exact value of `Number.MAX_VALUE`, the initial `minPrice` accumulator. -/
def jsMaxValue : ℚ := 2 ^ 1024 - 2 ^ 971

/-- Exact value of `Number.MIN_VALUE` (the smallest positive double, not a
negative number), the initial `maxPrice` accumulator. -/
def jsMinValue : ℚ := 1 / 2 ^ 1074

/-- Running `minPrice` accumulated over the samples (3DChart.jsx lines
403, 416). -/
def minAcc (samples : List Sample) : ℚ :=
  samples.foldl (fun acc s => jsMin acc s.price) jsMaxValue

/-- Running `maxPrice` accumulated over the samples (3DChart.jsx lines
404, 417). -/
def maxAcc (samples : List Sample) : ℚ :=
  samples.foldl (fun acc s => jsMax acc s.price) jsMinValue

/-- Inner loop of the final min/max scan: only non-sentinel cells update
the accumulators (3DChart.jsx lines 476-483). -/
def rangeScanRow (acc : ℚ × ℚ) (row : List ℚ) : ℚ × ℚ :=
  row.foldl (fun a c => if c ≠ basePrice then (jsMin a.1 c, jsMax a.2 c) else a) acc

/-- Final min/max scan over the whole grid. -/
def rangeScan (g : Grid) (acc : ℚ × ℚ) : ℚ × ℚ := g.foldl rangeScanRow acc

/-- `isFinite` on the model: every rational models a finite JS number; in
particular both accumulator sentinels `Number.MAX_VALUE` and
`Number.MIN_VALUE` are finite. -/
def jsIsFinite (_ : ℚ) : Bool := true

/-- `if (!isFinite(minPrice) || !isFinite(maxPrice)) { minPrice = 0;
maxPrice = 1000 }` (3DChart.jsx lines 486-489). -/
def ensureFiniteRange (r : ℚ × ℚ) : ℚ × ℚ :=
  if ¬ jsIsFinite r.1 ∨ ¬ jsIsFinite r.2 then (0, 1000) else r

/-- `if (maxPrice - minPrice < 10) maxPrice = minPrice + 10`
(3DChart.jsx lines 492-494): the widening raises only the maximum. -/
def widenRange (r : ℚ × ℚ) : ℚ × ℚ :=
  if r.2 - r.1 < 10 then (r.1, r.1 + 10) else r

/-- The value range produced by `initCharts` for a sample set and its
built grid: sample accumulators, grid rescan, finiteness fallback, then
degenerate-range widening. -/
def buildRange (samples : List Sample) (g : Grid) : ℚ × ℚ :=
  widenRange (ensureFiniteRange (rangeScan g (minAcc samples, maxAcc samples)))

/-- Message of the `throw new Error(...)` taken when the feed yields no
results (3DChart.jsx lines 393-395). -/
def noDataMsg : String := "No data available"

/-- The data-dependent part of `initCharts` after the fetch: a result set
with zero samples throws (modelled `Except.error`) before any grid or
range is built; otherwise the dense grid and the widened range are
produced. -/
def processResults (samples : List Sample) : Except String (Grid × (ℚ × ℚ)) :=
  if samples.length = 0 then Except.error noDataMsg
  else Except.ok (buildGrid samples, buildRange samples (buildGrid samples))

/-- `const HEIGHT_SCALE = 15` (3DChart.jsx line 672, terrain.jsx line 8). -/
def HEIGHT_SCALE : ℚ := 15

/-- `const X_SCALE_FACTOR = 2.5` (3DChart.jsx line 680), applied as
`terrain.scale.x` (line 1034). -/
def X_SCALE_FACTOR : ℚ := 5 / 2

/-- `Math.min(...values)` over a non-empty list; `0` for `[]` (the mesh
code only ever applies it to the 372 flattened grid cells). -/
def listMin : List ℚ → ℚ
  | [] => 0
  | c :: cs => cs.foldl jsMin c

/-- `Math.max(...values)` over a non-empty list; `0` for `[]`. -/
def listMax : List ℚ → ℚ
  | [] => 0
  | c :: cs => cs.foldl jsMax c

/-- `(price - minPrice) / (maxPrice - minPrice)` for cell `(m, d)` of the
`TerrainShader` price grid (3DChart.jsx lines 992-993), with min and max
taken over the flattened grid (lines 978-980); `ℚ`-division is total. -/
def normalizedPrice (g : Grid) (m d : ℕ) : ℚ :=
  (getCell g m d - listMin g.flatten) / (listMax g.flatten - listMin g.flatten)

/-- World-space position of the mesh vertex of cell `(m, d)`: the vertex
is pushed as `(month, normalizedPrice * HEIGHT_SCALE, day)` (3DChart.jsx
lines 994-997) and the mesh is scaled by `terrain.scale.x =
X_SCALE_FACTOR` (line 1034), so the world X is `month * X_SCALE_FACTOR`. -/
def vertexWorld (g : Grid) (m d : ℕ) : ℚ × ℚ × ℚ :=
  ((m : ℚ) * X_SCALE_FACTOR, normalizedPrice g m d * HEIGHT_SCALE, (d : ℚ))

/-- The pick inversion of the animation loop (3DChart.jsx lines
1080-1094): `monthIndex = Math.floor(point.x / X_SCALE_FACTOR)`,
`dayIndex = Math.floor(point.z)`, both clamped into the grid, and the
normalized height `point.y / HEIGHT_SCALE`. -/
def pickIndices (p : ℚ × ℚ × ℚ) : ℤ × ℤ × ℚ :=
  (min (max 0 ⌊p.1 / X_SCALE_FACTOR⌋) (12 - 1),
   min (max 0 ⌊p.2.2⌋) (31 - 1),
   p.2.1 / HEIGHT_SCALE)

/-- The vertex buffer built by the `TerrainShader` mesh loop (3DChart.jsx
lines 989-1002): for each month and day, three floats
`(month, normalizedPrice * HEIGHT_SCALE, day)` are pushed. -/
def buildPositions (g : Grid) (months days : ℕ) : List ℚ :=
  ((List.range months).map fun (month : ℕ) =>
    ((List.range days).map fun (day : ℕ) =>
      [(month : ℚ), normalizedPrice g month day * HEIGHT_SCALE, (day : ℚ)]).flatten).flatten

/-- The index buffer (3DChart.jsx lines 1005-1015): each interior quad
pushes the two triangles `(a, b, c)` and `(b, d, c)`. -/
def buildIndices (months days : ℕ) : List ℕ :=
  ((List.range (months - 1)).map fun (month : ℕ) =>
    ((List.range (days - 1)).map fun (day : ℕ) =>
      [month * days + day, month * days + day + 1, (month + 1) * days + day,
       month * days + day + 1, (month + 1) * days + day + 1,
       (month + 1) * days + day]).flatten).flatten

/-- Division as JS evaluates it when the result must be a finite real:
`none` models a non-finite result (`0/0 = NaN`, `x/0 = ±Infinity`).  The
source divides with no guard on the denominator. -/
def jsDivOpt (a b : ℚ) : Option ℚ := if b = 0 then none else some (a / b)

/-- The normalization of 3DChart.jsx line 993 (and terrain.jsx lines
236-237) with the zero-denominator behaviour made explicit: on a grid
whose min equals its max the JS expression is `0/0 = NaN`. -/
def normalizedPriceChecked (g : Grid) (m d : ℕ) : Option ℚ :=
  jsDivOpt (getCell g m d - listMin g.flatten) (listMax g.flatten - listMin g.flatten)

/-- One octave of the noise accumulation (terrain.jsx lines 220-228), on
state `(elevation, amplitude, frequency)`: add
`amplitude * noise(nx * frequency, ny * frequency, z)`, then halve the
amplitude and double the frequency. -/
def octaveStep (noise : ℚ → ℚ → ℚ → ℚ) (nx ny z : ℚ) (acc : ℚ × ℚ × ℚ) : ℚ × ℚ × ℚ :=
  (acc.1 + acc.2.1 * noise (nx * acc.2.2) (ny * acc.2.2) z,
   acc.2.1 * (1 / 2), acc.2.2 * 2)

/-- The raw elevation of one vertex: four octaves starting from
`elevation = 0, amplitude = 1, frequency = 1`. -/
def elevationAt (noise : ℚ → ℚ → ℚ → ℚ) (nx ny z : ℚ) : ℚ :=
  ((List.range 4).foldl (fun acc _ => octaveStep noise nx ny z acc) (0, 1, 1)).1

/-- The raw height field of `generateTerrain` (terrain.jsx lines 208-233)
for an `n × n` plane, whose `(n+1) * (n+1)` vertices are enumerated
row-major with `nx = (x / n) * 2`, `ny = (y / n) * 2` and noise slice
`z = seed % 1000`.  The coherent-noise primitive is the external
`ImprovedNoise` collaborator, passed as an explicit function. -/
def rawHeights (noise : ℚ → ℚ → ℚ → ℚ) (seed n : ℕ) : List ℚ :=
  ((List.range (n + 1)).map fun (y : ℕ) =>
    (List.range (n + 1)).map fun (x : ℕ) =>
      elevationAt noise (((x : ℚ) / (n : ℚ)) * 2) (((y : ℚ) / (n : ℚ)) * 2)
        ((seed % 1000 : ℕ) : ℚ)).flatten

/-- The full terrain synthesis: raw pass tracking min and max, then a
second pass normalizing every vertex to `(h - min) / (max - min)` scaled
by `HEIGHT_SCALE` (terrain.jsx lines 235-239). -/
def generateHeights (noise : ℚ → ℚ → ℚ → ℚ) (seed n : ℕ) : List ℚ :=
  (rawHeights noise seed n).map fun h =>
    ((h - listMin (rawHeights noise seed n)) /
      (listMax (rawHeights noise seed n) - listMin (rawHeights noise seed n))) *
      HEIGHT_SCALE

/-- Shape invariant of the calendar grid: 12 month rows of 31 day cells. -/
def gridShape (g : Grid) : Prop := g.length = 12 ∧ ∀ row ∈ g, row.length = 31

/-- Some month row of the grid contains a non-sentinel value. -/
def gridHasData (g : Grid) : Prop := ∃ j, j < 12 ∧ hasData (nthRow g j) = true

/-- Every row is all-sentinel or free of sentinels. -/
def allOrNothing (g : Grid) : Prop :=
  ∀ row ∈ g, (∃ c ∈ row, c ≠ basePrice) → ∀ c ∈ row, c ≠ basePrice

/-- The single sample of the spec scenario: month 5, day 14, price 200. -/
def sampleMay : Sample := ⟨5, 14, 200⟩

/-- First sample of the two-sample scenario: month 0, day 0, price 100. -/
def sampleJanFirst : Sample := ⟨0, 0, 100⟩

/-- Second sample of the two-sample scenario: month 0, day 30, price 200. -/
def sampleJanLast : Sample := ⟨0, 30, 200⟩

/-- A fully-populated constant grid used as a concrete witness input. -/
def constGrid : Grid := List.replicate 12 (List.replicate 31 (5 : ℚ))

/-- A small all-equal grid used as a concrete witness input. -/
def flatGrid : Grid := [[5, 5], [5, 5]]

/-- One of two extensionally equal noise collaborators used as witnesses. -/
def noiseA : ℚ → ℚ → ℚ → ℚ := fun x y z => x + (y + z)

/-- The other noise collaborator, syntactically different from `noiseA`. -/
def noiseB : ℚ → ℚ → ℚ → ℚ := fun x y z => (x + y) + z

/-! ### Basic lemmas about the fill passes -/

/-- A row free of sentinels is left unchanged by the forward-fill scan,
whatever the carry. -/
theorem ffa_id (last : Option ℚ) (l : List ℚ) (h : ∀ c ∈ l, c ≠ basePrice) :
    forwardFillAux last l = l := by
  induction l generalizing last with
  | nil => rfl
  | cons c cs ih =>
    have hc : c ≠ basePrice := h c (List.mem_cons_self c cs)
    simp only [forwardFillAux, if_pos hc]
    rw [ih (some c) fun x hx => h x (List.mem_cons_of_mem c hx)]

/-- The backward scan body is the forward scan body: the extra
`=== basePrice` test of the source is subsumed by the `else` branch. -/
theorem bfa_eq_ffa (last : Option ℚ) (l : List ℚ) :
    backwardFillAux last l = forwardFillAux last l := by
  induction l generalizing last with
  | nil => rfl
  | cons c cs ih =>
    by_cases hc : c = basePrice
    · cases last <;> simp [backwardFillAux, forwardFillAux, hc, ih]
    · simp [backwardFillAux, forwardFillAux, hc, ih]

/-- A row free of sentinels is a fixed point of the combined fill. -/
theorem fillMonthRow_id (row : List ℚ) (h : ∀ c ∈ row, c ≠ basePrice) :
    fillMonthRow row = row := by
  unfold fillMonthRow backwardFillRow forwardFillRow
  rw [ffa_id none row h, bfa_eq_ffa,
    ffa_id none row.reverse fun c hc => h c (List.mem_reverse.mp hc),
    List.reverse_reverse]

/-- C7: forward+backward fill is idempotent — on a grid in which no cell
equals the sentinel, re-running the per-month forward and backward fill
passes changes no cell. -/
theorem c7_fill_idempotent (g : Grid) (h : ∀ row ∈ g, ∀ c ∈ row, c ≠ basePrice) :
    fillMonths g = g := by
  unfold fillMonths
  induction g with
  | nil => rfl
  | cons r rs ih =>
    simp only [List.map_cons]
    rw [fillMonthRow_id r (h r (List.mem_cons_self r rs)),
      ih fun row hr => h row (List.mem_cons_of_mem r hr)]

set_option maxRecDepth 4000 in
/-- Witness for C7 at a concrete fully-populated grid. -/
theorem c7_witness : fillMonths constGrid = constGrid :=
  c7_fill_idempotent constGrid (by decide)

/-! ### The value range -/

/-- The finiteness fallback is the identity on the model: every rational
value is a finite JS number. -/
theorem ensureFiniteRange_eq (r : ℚ × ℚ) : ensureFiniteRange r = r := by
  simp [ensureFiniteRange, jsIsFinite]

/-- After widening, any range is ordered with a gap of at least 10. -/
theorem widenRange_spec (r : ℚ × ℚ) :
    (widenRange r).1 ≤ (widenRange r).2 ∧ (10 : ℚ) ≤ (widenRange r).2 - (widenRange r).1 := by
  unfold widenRange
  split
  · constructor
    · show r.1 ≤ r.1 + 10
      linarith
    · show (10 : ℚ) ≤ r.1 + 10 - r.1
      linarith
  · rename_i hlt
    rw [not_lt] at hlt
    exact ⟨by linarith, by linarith⟩

/-- C6: for every sample set, the value range produced by the grid build
satisfies `max ≥ min`, and after the widening step `max - min` is at least
the degenerate-range threshold of 10. -/
theorem c6_range_invariant (samples : List Sample) :
    (buildRange samples (buildGrid samples)).1 ≤ (buildRange samples (buildGrid samples)).2 ∧
    (10 : ℚ) ≤ (buildRange samples (buildGrid samples)).2 -
      (buildRange samples (buildGrid samples)).1 :=
  widenRange_spec _

/-! ### Zero-sample behaviour (C2) -/

/-- C2 counterexample: on the empty result set the pipeline does not
proceed to a sentinel grid with the fallback range `[0, 1000]` — it throws
before the grid build (3DChart.jsx lines 393-395). -/
theorem c2_counterexample :
    processResults [] ≠ Except.ok (emptyGrid, ((0 : ℚ), (1000 : ℚ))) :=
  fun h => Except.noConfusion h

set_option maxRecDepth 4000 in
/-- C2 amended: a zero-sample run raises an error (caught by the caller
and surfaced as an error state, so the process itself does not crash) and
builds neither grid nor range; had the range computation been reached with
zero samples, its accumulators `Number.MAX_VALUE` / `Number.MIN_VALUE`
are finite, so the `[0, 1000]` fallback would not fire and the widening
would return `[MAX_VALUE, MAX_VALUE + 10]` instead. -/
theorem c2_amended_thm :
    processResults [] = Except.error noDataMsg ∧
    buildRange [] emptyGrid = (jsMaxValue, jsMaxValue + 10) := by
  refine ⟨rfl, ?_⟩
  have h0 : rangeScan emptyGrid (minAcc [], maxAcc []) = (jsMaxValue, jsMinValue) := rfl
  unfold buildRange
  rw [h0, ensureFiniteRange_eq]
  unfold widenRange
  rw [if_pos (by norm_num [jsMinValue, jsMaxValue])]

/-! ### Single-sample scenario (C3) -/

/-- One row scan over an all-`a` row starting from accumulators `(a, a)`
stays at `(a, a)` when `a` is not the sentinel. -/
theorem rangeScanRow_all_eq (n : ℕ) (a : ℚ) (ha : a ≠ basePrice) :
    rangeScanRow (a, a) (List.replicate n a) = (a, a) := by
  induction n with
  | zero => rfl
  | succ k ih =>
    unfold rangeScanRow at ih ⊢
    simp only [List.replicate_succ, List.foldl_cons]
    rw [if_pos ha, show jsMin a a = a by simp [jsMin], show jsMax a a = a by simp [jsMax]]
    exact ih

/-- The grid scan over an all-`a` grid starting from `(a, a)` stays there. -/
theorem rangeScan_all_eq (k n : ℕ) (a : ℚ) (ha : a ≠ basePrice) :
    rangeScan (List.replicate k (List.replicate n a)) (a, a) = (a, a) := by
  induction k with
  | zero => rfl
  | succ j ih =>
    unfold rangeScan at ih ⊢
    simp only [List.replicate_succ, List.foldl_cons]
    rw [rangeScanRow_all_eq n a ha]
    exact ih

set_option maxRecDepth 4000 in
/-- Shared computation: the range built from the single May sample over
its built grid is `[200, 210]`. -/
theorem buildRange_sampleMay :
    buildRange [sampleMay] (buildGrid [sampleMay]) = (200, 210) := by
  have hmin : minAcc [sampleMay] = 200 := by
    show jsMin jsMaxValue 200 = 200
    unfold jsMin
    rw [if_neg (by norm_num [jsMaxValue])]
  have hmax : maxAcc [sampleMay] = 200 := by
    show jsMax jsMinValue 200 = 200
    unfold jsMax
    rw [if_pos (by norm_num [jsMinValue])]
  have hscan : rangeScan (buildGrid [sampleMay]) (200, 200) = (200, 200) := by
    rw [show buildGrid [sampleMay] = List.replicate 12 (List.replicate 31 (200 : ℚ)) by decide]
    exact rangeScan_all_eq 12 31 200 (by norm_num [basePrice])
  unfold buildRange
  rw [hmin, hmax, hscan, ensureFiniteRange_eq]
  unfold widenRange
  rw [if_pos (by norm_num)]
  norm_num

set_option maxRecDepth 4000 in
/-- C3 counterexample: for the single sample `(month 5, day 14, price
200)` the degenerate range is widened one-sidedly to `(200, 210)`, which
is not the symmetric `[195, 205]` widening the claim describes (the
distance below the observed price is 0, the distance above is 10). -/
theorem c3_counterexample :
    buildRange [sampleMay] (buildGrid [sampleMay]) = (200, 210) ∧
    ¬ ((200 : ℚ) - (buildRange [sampleMay] (buildGrid [sampleMay])).1 =
        (buildRange [sampleMay] (buildGrid [sampleMay])).2 - 200) := by
  have h : buildRange [sampleMay] (buildGrid [sampleMay]) = (200, 210) := by
    have hmin : minAcc [sampleMay] = 200 := by
      show jsMin jsMaxValue 200 = 200
      unfold jsMin
      rw [if_neg (by norm_num [jsMaxValue])]
    have hmax : maxAcc [sampleMay] = 200 := by
      show jsMax jsMinValue 200 = 200
      unfold jsMax
      rw [if_pos (by norm_num [jsMinValue])]
    have hscan : rangeScan (buildGrid [sampleMay]) (200, 200) = (200, 200) := by
      rw [show buildGrid [sampleMay] = List.replicate 12 (List.replicate 31 (200 : ℚ)) by decide]
      exact rangeScan_all_eq 12 31 200 (by norm_num [basePrice])
    unfold buildRange
    rw [hmin, hmax, hscan, ensureFiniteRange_eq]
    unfold widenRange
    rw [if_pos (by norm_num)]
    norm_num
  refine ⟨h, ?_⟩
  rw [h]
  norm_num

set_option maxRecDepth 4000 in
/-- C3 amended: with the single sample `(month 5, day 14, price 200)` the
fill and the nearest-month fallback propagate 200 into every cell of every
month, and the degenerate range `min = max = 200` is widened one-sidedly
(max raised by the threshold) to `[200, 210]`. -/
theorem c3_amended_thm :
    buildGrid [sampleMay] = List.replicate 12 (List.replicate 31 (200 : ℚ)) ∧
    buildRange [sampleMay] (buildGrid [sampleMay]) = (200, 210) :=
  ⟨by decide, buildRange_sampleMay⟩

/-! ### Two-sample forward-fill scenario (C4) -/

set_option maxRecDepth 4000 in
/-- C4 counterexample: with samples at day 0 (price 100) and day 30
(price 200) of month 0, the forward-fill pass leaves day 1 at 100 — the
carry runs forward from day 0 — not at 200 as the claim states. -/
theorem c4_counterexample :
    getEntry (nthRow (forwardFillGrid (placeSamples [sampleJanFirst, sampleJanLast])) 0) 1 = 100 ∧
    ((100 : ℚ) ≠ 200) :=
  ⟨by decide, by norm_num⟩

set_option maxRecDepth 4000 in
/-- C4 amended: after the forward-fill pass, days 0 through 29 of month 0
hold 100 and day 30 holds 200; the subsequent backward-fill pass overrides
no already-filled value (the grid is unchanged by it). -/
theorem c4_amended_thm :
    nthRow (forwardFillGrid (placeSamples [sampleJanFirst, sampleJanLast])) 0 =
      List.replicate 30 (100 : ℚ) ++ [200] ∧
    fillMonths (placeSamples [sampleJanFirst, sampleJanLast]) =
      forwardFillGrid (placeSamples [sampleJanFirst, sampleJanLast]) :=
  ⟨by decide, by decide⟩

/-! ### Terrain determinism (C8) -/

/-- C8: the terrain synthesis is a pure function of the noise collaborator,
the seed and the resolution — two runs whose noise functions agree
pointwise and whose seeds and resolutions are equal produce identical
height grids. -/
theorem c8_terrain_deterministic (f g : ℚ → ℚ → ℚ → ℚ) (s1 s2 n1 n2 : ℕ)
    (hfg : ∀ x y z, f x y z = g x y z) (hs : s1 = s2) (hn : n1 = n2) :
    generateHeights f s1 n1 = generateHeights g s2 n2 := by
  subst hs
  subst hn
  have hf : f = g := funext fun x => funext fun y => funext fun z => hfg x y z
  rw [hf]

/-- Witness for C8: two syntactically different but extensionally equal
noise functions, same seed 7 and resolution 2. -/
theorem c8_witness : generateHeights noiseA 7 2 = generateHeights noiseB 7 2 :=
  c8_terrain_deterministic noiseA noiseB 7 7 2 2
    (fun x y z => by simp [noiseA, noiseB, add_assoc]) rfl rfl

/-! ### Mesh counts (C9) -/

/-- Length of a flattened list of blocks that all have the same length. -/
theorem length_flatten_const {β : Type} (L : List (List β)) (k : ℕ)
    (h : ∀ x ∈ L, x.length = k) : L.flatten.length = L.length * k := by
  induction L with
  | nil => simp
  | cons a t ih =>
    simp only [List.flatten_cons, List.length_append, List.length_cons]
    rw [h a (List.mem_cons_self a t), ih fun x hx => h x (List.mem_cons_of_mem a hx)]
    ring

/-- C9: the mesh loop emits exactly `months * days` vertices (three floats
each) and `2 * (months - 1) * (days - 1)` triangles (three indices each). -/
theorem c9_mesh_counts (g : Grid) (months days : ℕ) (hm : 2 ≤ months) (hd : 2 ≤ days) :
    (buildPositions g months days).length = 3 * (months * days) ∧
    (buildIndices months days).length = 2 * ((months - 1) * (days - 1)) * 3 := by
  constructor
  · unfold buildPositions
    have hinner : ∀ x ∈ (List.range months).map (fun (month : ℕ) =>
        ((List.range days).map fun (day : ℕ) =>
          [(month : ℚ), normalizedPrice g month day * HEIGHT_SCALE, (day : ℚ)]).flatten),
        x.length = days * 3 := by
      intro x hx
      obtain ⟨month, _, rfl⟩ := List.mem_map.mp hx
      have h3 : ∀ y ∈ (List.range days).map (fun (day : ℕ) =>
          [(month : ℚ), normalizedPrice g month day * HEIGHT_SCALE, (day : ℚ)]),
          y.length = 3 := by
        intro y hy
        obtain ⟨day, _, rfl⟩ := List.mem_map.mp hy
        rfl
      rw [length_flatten_const _ 3 h3, List.length_map, List.length_range]
    rw [length_flatten_const _ (days * 3) hinner, List.length_map, List.length_range]
    ring
  · unfold buildIndices
    have hinner : ∀ x ∈ (List.range (months - 1)).map (fun (month : ℕ) =>
        ((List.range (days - 1)).map fun (day : ℕ) =>
          [month * days + day, month * days + day + 1, (month + 1) * days + day,
           month * days + day + 1, (month + 1) * days + day + 1,
           (month + 1) * days + day]).flatten),
        x.length = (days - 1) * 6 := by
      intro x hx
      obtain ⟨month, _, rfl⟩ := List.mem_map.mp hx
      have h6 : ∀ y ∈ (List.range (days - 1)).map (fun (day : ℕ) =>
          [month * days + day, month * days + day + 1, (month + 1) * days + day,
           month * days + day + 1, (month + 1) * days + day + 1,
           (month + 1) * days + day]),
          y.length = 6 := by
        intro y hy
        obtain ⟨day, _, rfl⟩ := List.mem_map.mp hy
        rfl
      rw [length_flatten_const _ 6 h6, List.length_map, List.length_range]
    rw [length_flatten_const _ ((days - 1) * 6) hinner, List.length_map, List.length_range]
    ring

/-- Witness for C9 at the source's own 12 × 31 grid shape. -/
theorem c9_witness :
    2 ≤ 12 ∧ 2 ≤ 31 ∧
    (buildPositions emptyGrid 12 31).length = 3 * (12 * 31) ∧
    (buildIndices 12 31).length = 2 * ((12 - 1) * (31 - 1)) * 3 :=
  ⟨by norm_num, by norm_num, c9_mesh_counts emptyGrid 12 31 (by norm_num) (by norm_num)⟩

/-! ### Unguarded normalization (C10) -/

/-- Folding `Math.min` over values all equal to the accumulator is the
accumulator. -/
theorem foldl_jsMin_const (cs : List ℚ) (a : ℚ) (h : ∀ v ∈ cs, v = a) :
    cs.foldl jsMin a = a := by
  induction cs with
  | nil => rfl
  | cons v t ih =>
    have hv : v = a := h v (List.mem_cons_self v t)
    subst hv
    simp only [List.foldl_cons]
    rw [show jsMin v v = v by simp [jsMin]]
    exact ih fun w hw => h w (List.mem_cons_of_mem v hw)

/-- Folding `Math.max` over values all equal to the accumulator is the
accumulator. -/
theorem foldl_jsMax_const (cs : List ℚ) (a : ℚ) (h : ∀ v ∈ cs, v = a) :
    cs.foldl jsMax a = a := by
  induction cs with
  | nil => rfl
  | cons v t ih =>
    have hv : v = a := h v (List.mem_cons_self v t)
    subst hv
    simp only [List.foldl_cons]
    rw [show jsMax v v = v by simp [jsMax]]
    exact ih fun w hw => h w (List.mem_cons_of_mem v hw)

/-- The minimum of a non-empty all-equal list is that value. -/
theorem listMin_const (l : List ℚ) (c : ℚ) (hne : l ≠ []) (h : ∀ v ∈ l, v = c) :
    listMin l = c := by
  cases l with
  | nil => exact absurd rfl hne
  | cons v t =>
    have hv : v = c := h v (List.mem_cons_self v t)
    subst hv
    exact foldl_jsMin_const t v fun w hw => h w (List.mem_cons_of_mem v hw)

/-- The maximum of a non-empty all-equal list is that value. -/
theorem listMax_const (l : List ℚ) (c : ℚ) (hne : l ≠ []) (h : ∀ v ∈ l, v = c) :
    listMax l = c := by
  cases l with
  | nil => exact absurd rfl hne
  | cons v t =>
    have hv : v = c := h v (List.mem_cons_self v t)
    subst hv
    exact foldl_jsMax_const t v fun w hw => h w (List.mem_cons_of_mem v hw)

/-- C10: the mesh normalization divides by `max - min` with no guard, so
on any non-empty grid whose cells are all equal the denominator is `0 - 0`
and every normalized value is `0/0 = NaN` (modelled `none`) rather than a
number in `[0, 1]`; normalization produces a finite number only when
`max > min`. -/
theorem c10_nan_normalization (g : Grid) (m d : ℕ) (c : ℚ) (hne : g.flatten ≠ [])
    (hall : ∀ v ∈ g.flatten, v = c) :
    normalizedPriceChecked g m d = none ∧ listMax g.flatten = listMin g.flatten := by
  have h1 : listMin g.flatten = c := listMin_const _ c hne hall
  have h2 : listMax g.flatten = c := listMax_const _ c hne hall
  constructor
  · unfold normalizedPriceChecked jsDivOpt
    rw [h1, h2, sub_self, if_pos rfl]
  · rw [h1, h2]

/-- Witness for C10 at a concrete all-equal grid. -/
theorem c10_witness :
    normalizedPriceChecked flatGrid 0 1 = none ∧
    listMax flatGrid.flatten = listMin flatGrid.flatten :=
  c10_nan_normalization flatGrid 0 1 5 (by decide) (by decide)

/-! ### Pick round-trip (C5) -/

/-- C5: picking a ray through the exact world-space vertex of grid cell
`(m, d)` recovers the original month and day indices exactly (after the
division of world X by the axis scale factor, flooring and clamping) and
recovers the normalized height `worldY / HEIGHT_SCALE` exactly. -/
theorem c5_pick_roundtrip (g : Grid) (m d : ℕ) (hm : m < 12) (hd : d < 31) :
    pickIndices (vertexWorld g m d) = ((m : ℤ), (d : ℤ), normalizedPrice g m d) := by
  unfold pickIndices vertexWorld
  have hx : ((m : ℚ) * X_SCALE_FACTOR) / X_SCALE_FACTOR = (m : ℚ) :=
    mul_div_cancel_right₀ _ (by norm_num [X_SCALE_FACTOR])
  have hy : normalizedPrice g m d * HEIGHT_SCALE / HEIGHT_SCALE = normalizedPrice g m d :=
    mul_div_cancel_right₀ _ (by norm_num [HEIGHT_SCALE])
  simp only [hx, hy, Int.floor_natCast, Prod.mk.injEq]
  refine ⟨?_, ?_, trivial⟩
  · rw [max_eq_right (Int.natCast_nonneg m), min_eq_left (by omega)]
  · rw [max_eq_right (Int.natCast_nonneg d), min_eq_left (by omega)]

/-- Witness for C5 at cell `(3, 7)` of the empty grid. -/
theorem c5_witness :
    pickIndices (vertexWorld emptyGrid 3 7) = ((3 : ℤ), (7 : ℤ), normalizedPrice emptyGrid 3 7) :=
  c5_pick_roundtrip emptyGrid 3 7 (by norm_num) (by norm_num)

/-! ### Structural lemmas on grid rows and cells -/

/-- Replacing a row keeps the number of rows. -/
theorem setRow_length (g : Grid) (j : ℕ) (r : List ℚ) : (setRow g j r).length = g.length := by
  induction g generalizing j with
  | nil => rfl
  | cons r0 rs ih =>
    cases j with
    | zero => rfl
    | succ k => simp only [setRow, List.length_cons, ih]

/-- Reading back a row just replaced. -/
theorem nthRow_setRow_self (g : Grid) (j : ℕ) (r : List ℚ) (h : j < g.length) :
    nthRow (setRow g j r) j = r := by
  induction g generalizing j with
  | nil => simp at h
  | cons r0 rs ih =>
    cases j with
    | zero => rfl
    | succ k => exact ih k (by simpa using h)

/-- Replacing one row leaves the others untouched. -/
theorem nthRow_setRow_ne (g : Grid) (j k : ℕ) (r : List ℚ) (h : j ≠ k) :
    nthRow (setRow g j r) k = nthRow g k := by
  induction g generalizing j k with
  | nil => rfl
  | cons r0 rs ih =>
    cases j with
    | zero =>
      cases k with
      | zero => exact absurd rfl h
      | succ k2 => rfl
    | succ j2 =>
      cases k with
      | zero => rfl
      | succ k2 => exact ih j2 k2 fun hh => h (by rw [hh])

/-- Every row of a grid with one row replaced is an old row or the new one. -/
theorem mem_setRow (g : Grid) (j : ℕ) (r : List ℚ) :
    ∀ x ∈ setRow g j r, x ∈ g ∨ x = r := by
  induction g generalizing j with
  | nil => intro x hx; simp [setRow] at hx
  | cons r0 rs ih =>
    cases j with
    | zero =>
      intro x hx
      rcases List.mem_cons.mp hx with h2 | h2
      · exact Or.inr h2
      · exact Or.inl (List.mem_cons_of_mem r0 h2)
    | succ k =>
      intro x hx
      rcases List.mem_cons.mp hx with h2 | h2
      · exact Or.inl (h2 ▸ List.mem_cons_self r0 rs)
      · rcases ih k x h2 with h3 | h3
        · exact Or.inl (List.mem_cons_of_mem r0 h3)
        · exact Or.inr h3

/-- An in-range row is a member of the grid. -/
theorem nthRow_mem (g : Grid) (j : ℕ) (h : j < g.length) : nthRow g j ∈ g := by
  induction g generalizing j with
  | nil => simp at h
  | cons r0 rs ih =>
    cases j with
    | zero => exact List.mem_cons_self r0 rs
    | succ k => exact List.mem_cons_of_mem r0 (ih k (by simpa using h))

/-- Out-of-range row access yields the empty row. -/
theorem nthRow_oob (g : Grid) (j : ℕ) (h : g.length ≤ j) : nthRow g j = [] := by
  induction g generalizing j with
  | nil => rfl
  | cons r0 rs ih =>
    cases j with
    | zero => simp at h
    | succ k => exact ih k (by simpa using h)

/-- Writing a cell keeps the row length. -/
theorem setEntry_length (l : List ℚ) (d : ℕ) (v : ℚ) : (setEntry l d v).length = l.length := by
  induction l generalizing d with
  | nil => rfl
  | cons c cs ih =>
    cases d with
    | zero => rfl
    | succ k => simp only [setEntry, List.length_cons, ih]

/-- An in-range write puts its value into the row. -/
theorem mem_setEntry_self (l : List ℚ) (d : ℕ) (v : ℚ) (h : d < l.length) :
    v ∈ setEntry l d v := by
  induction l generalizing d with
  | nil => simp at h
  | cons c cs ih =>
    cases d with
    | zero => exact List.mem_cons_self v cs
    | succ k => exact List.mem_cons_of_mem c (ih k (by simpa using h))

/-- The Bool `some`-test of the source agrees with the existential. -/
theorem hasData_iff (row : List ℚ) : hasData row = true ↔ ∃ c ∈ row, c ≠ basePrice := by
  simp [hasData]

/-- Row access through a mapped grid. -/
theorem nthRow_map (f : List ℚ → List ℚ) (g : Grid) (j : ℕ) (h : j < g.length) :
    nthRow (g.map f) j = f (nthRow g j) := by
  induction g generalizing j with
  | nil => simp at h
  | cons r rs ih =>
    cases j with
    | zero => rfl
    | succ k => exact ih k (by simpa using h)

/-- Every member row sits at some in-range index. -/
theorem mem_nthRow_exists (g : Grid) (row : List ℚ) (h : row ∈ g) :
    ∃ j, j < g.length ∧ nthRow g j = row := by
  induction g with
  | nil => simp at h
  | cons r rs ih =>
    rcases List.mem_cons.mp h with h2 | h2
    · exact ⟨0, by simp, h2.symm⟩
    · obtain ⟨j, hj, hjr⟩ := ih h2
      exact ⟨j + 1, by simpa using Nat.succ_lt_succ hj, hjr⟩

/-! ### Behaviour of the fill passes on partially-filled rows -/

/-- Unfolding the forward scan at a non-sentinel head. -/
theorem ffa_cons_pos (last : Option ℚ) (c : ℚ) (rest : List ℚ) (h : c ≠ basePrice) :
    forwardFillAux last (c :: rest) = c :: forwardFillAux (some c) rest := by
  simp only [forwardFillAux, if_pos h]

/-- Unfolding the forward scan at a sentinel head with a carry. -/
theorem ffa_cons_zero_some (p c : ℚ) (rest : List ℚ) (h : c = basePrice) :
    forwardFillAux (some p) (c :: rest) = p :: forwardFillAux (some p) rest := by
  simp only [forwardFillAux]
  rw [if_neg (by simp [h])]

/-- Unfolding the forward scan at a sentinel head with no carry yet. -/
theorem ffa_cons_zero_none (c : ℚ) (rest : List ℚ) (h : c = basePrice) :
    forwardFillAux none (c :: rest) = c :: forwardFillAux none rest := by
  simp only [forwardFillAux]
  rw [if_neg (by simp [h])]

/-- The forward scan keeps the row length. -/
theorem ffa_length (last : Option ℚ) (l : List ℚ) :
    (forwardFillAux last l).length = l.length := by
  induction l generalizing last with
  | nil => rfl
  | cons c cs ih =>
    by_cases hc : c = basePrice
    · cases last with
      | none => rw [ffa_cons_zero_none c cs hc]; simp [ih]
      | some p => rw [ffa_cons_zero_some p c cs hc]; simp [ih]
    · rw [ffa_cons_pos last c cs hc]; simp [ih]

/-- Once a non-sentinel carry exists, every later cell of the forward scan
is non-sentinel: observed cells were non-sentinel and filled cells copy a
non-sentinel carry. -/
theorem ffa_some_nonzero (l : List ℚ) (p : ℚ) (hp : p ≠ basePrice) :
    ∀ c ∈ forwardFillAux (some p) l, c ≠ basePrice := by
  induction l generalizing p with
  | nil => intro c hc; simp [forwardFillAux] at hc
  | cons c0 cs ih =>
    by_cases hc0 : c0 = basePrice
    · rw [ffa_cons_zero_some p c0 cs hc0]
      intro c hc
      rcases List.mem_cons.mp hc with h2 | h2
      · exact h2 ▸ hp
      · exact ih p hp c h2
    · rw [ffa_cons_pos (some p) c0 cs hc0]
      intro c hc
      rcases List.mem_cons.mp hc with h2 | h2
      · exact h2 ▸ hc0
      · exact ih c0 hc0 c h2

/-- A row of sentinels passes through the forward scan unchanged. -/
theorem ffa_none_all_zero (l : List ℚ) (h : ∀ c ∈ l, c = basePrice) :
    forwardFillAux none l = l := by
  induction l with
  | nil => rfl
  | cons c cs ih =>
    rw [ffa_cons_zero_none c cs (h c (List.mem_cons_self c cs)),
      ih fun x hx => h x (List.mem_cons_of_mem c hx)]

/-- A row with at least one observation forward-fills to a sentinel prefix
followed by a non-empty sentinel-free suffix. -/
theorem ffa_none_split (l : List ℚ) (h : ∃ c ∈ l, c ≠ basePrice) :
    ∃ z t, forwardFillAux none l = z ++ t ∧ (∀ c ∈ z, c = basePrice) ∧
      t ≠ [] ∧ ∀ c ∈ t, c ≠ basePrice := by
  induction l with
  | nil =>
    obtain ⟨c, hc, _⟩ := h
    simp at hc
  | cons c0 cs ih =>
    by_cases hc0 : c0 = basePrice
    · have h2 : ∃ c ∈ cs, c ≠ basePrice := by
        obtain ⟨c, hc, hne⟩ := h
        rcases List.mem_cons.mp hc with h3 | h3
        · exact absurd hc0 (h3 ▸ hne)
        · exact ⟨c, h3, hne⟩
      obtain ⟨z, t, heq, hz, htne, ht⟩ := ih h2
      refine ⟨c0 :: z, t, ?_, ?_, htne, ht⟩
      · rw [ffa_cons_zero_none c0 cs hc0, heq]
        rfl
      · intro c hc
        rcases List.mem_cons.mp hc with h3 | h3
        · rw [h3]; exact hc0
        · exact hz c h3
    · refine ⟨[], c0 :: forwardFillAux (some c0) cs, ?_, by simp, by simp, ?_⟩
      · rw [ffa_cons_pos none c0 cs hc0]
        rfl
      · intro c hc
        rcases List.mem_cons.mp hc with h3 | h3
        · exact h3 ▸ hc0
        · exact ffa_some_nonzero cs c0 hc0 c h3

/-- A row with at least one observation is sentinel-free after the forward
and backward passes. -/
theorem fillMonthRow_filled (row : List ℚ) (h : ∃ c ∈ row, c ≠ basePrice) :
    ∀ c ∈ fillMonthRow row, c ≠ basePrice := by
  obtain ⟨z, t, heq, hz, htne, ht⟩ := ffa_none_split row h
  unfold fillMonthRow backwardFillRow forwardFillRow
  rw [bfa_eq_ffa, heq, List.reverse_append]
  obtain ⟨q, t2, ht2⟩ : ∃ q t2, t.reverse = q :: t2 := by
    cases htr : t.reverse with
    | nil => exact absurd (by simpa using congrArg List.reverse htr) htne
    | cons q t2 => exact ⟨q, t2, rfl⟩
  have hq : q ≠ basePrice := ht q (List.mem_reverse.mp (ht2 ▸ List.mem_cons_self q t2))
  rw [ht2, List.cons_append, ffa_cons_pos none q _ hq]
  intro c hc
  rw [List.mem_reverse] at hc
  rcases List.mem_cons.mp hc with h3 | h3
  · exact h3 ▸ hq
  · exact ffa_some_nonzero _ q hq c h3

/-- A row of sentinels is unchanged by both passes. -/
theorem fillMonthRow_all_zero (row : List ℚ) (h : ∀ c ∈ row, c = basePrice) :
    fillMonthRow row = row := by
  unfold fillMonthRow backwardFillRow forwardFillRow
  rw [ffa_none_all_zero row h, bfa_eq_ffa,
    ffa_none_all_zero row.reverse fun c hc => h c (List.mem_reverse.mp hc),
    List.reverse_reverse]

/-- Both passes keep the row length. -/
theorem fillMonthRow_length (row : List ℚ) : (fillMonthRow row).length = row.length := by
  unfold fillMonthRow backwardFillRow forwardFillRow
  rw [bfa_eq_ffa]
  simp [ffa_length]

/-- Both passes preserve the presence of data in a row. -/
theorem fillMonthRow_hasData (row : List ℚ) (h : ∃ c ∈ row, c ≠ basePrice) :
    ∃ c ∈ fillMonthRow row, c ≠ basePrice := by
  have hrne : row ≠ [] := by
    obtain ⟨c, hc, _⟩ := h
    intro h0
    rw [h0] at hc
    simp at hc
  have hne : fillMonthRow row ≠ [] := by
    intro hfe
    have h1 : (fillMonthRow row).length = 0 := by rw [hfe]; rfl
    rw [fillMonthRow_length row, List.length_eq_zero] at h1
    exact hrne h1
  obtain ⟨c, hc⟩ := List.exists_mem_of_ne_nil (fillMonthRow row) hne
  exact ⟨c, hc, fillMonthRow_filled row h c hc⟩

/-! ### Sample placement -/

/-- The empty grid has the calendar shape. -/
theorem emptyGrid_shape : gridShape emptyGrid := by
  constructor
  · rfl
  · intro row hr
    rw [List.eq_of_mem_replicate hr]
    rfl

/-- An in-range cell write preserves the calendar shape. -/
theorem setCell_shape (g : Grid) (m d : ℕ) (v : ℚ) (h : gridShape g) (hm : m < 12) :
    gridShape (setCell g m d v) := by
  obtain ⟨hlen, hrows⟩ := h
  constructor
  · unfold setCell
    rw [setRow_length, hlen]
  · intro row hr
    unfold setCell at hr
    rcases mem_setRow g m _ row hr with h2 | h2
    · exact hrows row h2
    · rw [h2, setEntry_length]
      exact hrows (nthRow g m) (nthRow_mem g m (by rw [hlen]; exact hm))

/-- Writing a non-sentinel price makes its month row carry data. -/
theorem write_creates (g : Grid) (m d : ℕ) (v : ℚ) (h : gridShape g) (hm : m < 12)
    (hd : d < 31) (hv : v ≠ basePrice) : hasData (nthRow (setCell g m d v) m) = true := by
  obtain ⟨hlen, hrows⟩ := h
  unfold setCell
  rw [nthRow_setRow_self g m _ (by rw [hlen]; exact hm)]
  rw [hasData_iff]
  refine ⟨v, ?_, hv⟩
  apply mem_setEntry_self
  rw [hrows (nthRow g m) (nthRow_mem g m (by rw [hlen]; exact hm))]
  exact hd

/-- Writing all samples preserves the shape, and any non-empty positive
sample list leaves data somewhere in the grid. -/
theorem placeSamples_facts (samples : List Sample) (hpos : ∀ s ∈ samples, 0 < s.price) :
    gridShape (placeSamples samples) ∧
    (samples ≠ [] → gridHasData (placeSamples samples)) := by
  suffices h : ∀ (l : List Sample) (g : Grid), gridShape g → (∀ s ∈ l, 0 < s.price) →
      gridShape (l.foldl (fun g s => setCell g s.month.val s.day.val s.price) g) ∧
      (gridHasData g →
        gridHasData (l.foldl (fun g s => setCell g s.month.val s.day.val s.price) g)) ∧
      (l ≠ [] →
        gridHasData (l.foldl (fun g s => setCell g s.month.val s.day.val s.price) g)) by
    obtain ⟨ha, _, hc⟩ := h samples emptyGrid emptyGrid_shape hpos
    exact ⟨ha, hc⟩
  intro l
  induction l with
  | nil =>
    intro g hg _
    exact ⟨hg, fun hd => hd, fun hne => absurd rfl hne⟩
  | cons s rest ih =>
    intro g hg hp
    have hm : s.month.val < 12 := s.month.isLt
    have hd31 : s.day.val < 31 := s.day.isLt
    have hv : s.price ≠ basePrice := by
      have h0 := hp s (List.mem_cons_self s rest)
      simpa [basePrice] using ne_of_gt h0
    simp only [List.foldl_cons]
    have hg1 : gridShape (setCell g s.month.val s.day.val s.price) :=
      setCell_shape g _ _ _ hg hm
    have hdat1 : gridHasData (setCell g s.month.val s.day.val s.price) :=
      ⟨s.month.val, hm, write_creates g _ _ _ hg hm hd31 hv⟩
    obtain ⟨ha, hb, _⟩ := ih (setCell g s.month.val s.day.val s.price) hg1
      fun x hx => hp x (List.mem_cons_of_mem s hx)
    exact ⟨ha, fun _ => hb hdat1, fun _ => hb hdat1⟩

/-! ### The fill phase on whole grids -/

/-- After the per-month fills, every row is all-sentinel or sentinel-free. -/
theorem fillMonths_aon (g : Grid) : allOrNothing (fillMonths g) := by
  intro row hr hx
  obtain ⟨row0, hr0, hrow⟩ := List.mem_map.mp hr
  by_cases h0 : ∃ c ∈ row0, c ≠ basePrice
  · exact hrow ▸ fillMonthRow_filled row0 h0
  · push_neg at h0
    rw [← hrow, fillMonthRow_all_zero row0 h0] at hx
    obtain ⟨c, hc, hne⟩ := hx
    exact absurd (h0 c hc) hne

/-- The per-month fills preserve the presence of data. -/
theorem fillMonths_dat (g : Grid) (hlen : g.length = 12) (hdat : gridHasData g) :
    gridHasData (fillMonths g) := by
  obtain ⟨j, hj, hjd⟩ := hdat
  refine ⟨j, hj, ?_⟩
  unfold fillMonths
  rw [nthRow_map fillMonthRow g j (by rw [hlen]; exact hj)]
  exact (hasData_iff _).mpr (fillMonthRow_hasData _ ((hasData_iff _).mp hjd))

/-! ### The nearest-month search -/

/-- Fold invariance helper. -/
theorem foldl_preserves {α β : Type} (Q : β → Prop) :
    ∀ (l : List α) (f : β → α → β) (b : β), Q b →
      (∀ b2 a, a ∈ l → Q b2 → Q (f b2 a)) → Q (l.foldl f b) := by
  intro l
  induction l with
  | nil => intro f b hb _; exact hb
  | cons a t ih =>
    intro f b hb hf
    simp only [List.foldl_cons]
    exact ih f (f b a) (hf b a (List.mem_cons_self a t) hb)
      fun b2 x hx => hf b2 x (List.mem_cons_of_mem a hx)

/-- Whatever the search returns has data and is a valid month index. -/
theorem findNearest_sound (g : Grid) (m : ℕ) (mm : ℕ) (h : findNearestMonth g m = some mm) :
    hasData (nthRow g mm) = true ∧ mm < 12 := by
  unfold findNearestMonth at h
  have hQ : (fun acc : ℕ × Option ℕ =>
      ∀ k, acc.2 = some k → hasData (nthRow g k) = true ∧ k < 12)
      ((List.range 12).foldl (nearestStep g m) (12, none)) := by
    refine foldl_preserves
      (fun acc : ℕ × Option ℕ =>
        ∀ k, acc.2 = some k → hasData (nthRow g k) = true ∧ k < 12)
      (List.range 12) (nearestStep g m) (12, none) ?_ ?_
    · intro k hk
      simp at hk
    · intro acc x hx hQ2
      unfold nearestStep
      split
      · exact hQ2
      · split
        · rename_i h1 h2
          intro k hk
          obtain rfl : x = k := by simpa using hk
          exact ⟨h2.1, List.mem_range.mp hx⟩
        · exact hQ2
  exact hQ mm h

/-- If some other month with data exists, the search finds a candidate:
the invariant is that the running best distance starts at 12 and any data
month sits at distance at most 11, so the candidate slot cannot stay
empty. -/
theorem nearest_fold_some (g : Grid) (m : ℕ) (hm : m < 12) :
    ∀ (l : List ℕ) (acc : ℕ × Option ℕ), acc.1 ≤ 12 → (acc.2 = none → acc.1 = 12) →
      ((∃ j ∈ l, j ≠ m ∧ j < 12 ∧ hasData (nthRow g j) = true) ∨ acc.2 ≠ none) →
      (l.foldl (nearestStep g m) acc).2 ≠ none := by
  intro l
  induction l with
  | nil =>
    intro acc _ _ hor
    rcases hor with h | h
    · obtain ⟨j, hj, _⟩ := h
      simp at hj
    · simpa using h
  | cons x t ih =>
    intro acc hle hnone hor
    simp only [List.foldl_cons]
    by_cases hxm : x = m
    · have hs : nearestStep g m acc x = acc := by
        unfold nearestStep
        rw [if_pos hxm]
      rw [hs]
      apply ih acc hle hnone
      rcases hor with ⟨j, hj, hjm, hjlt, hjd⟩ | h
      · rcases List.mem_cons.mp hj with h3 | h3
        · exact absurd (h3 ▸ hxm) hjm
        · exact Or.inl ⟨j, h3, hjm, hjlt, hjd⟩
      · exact Or.inr h
    · by_cases hcond : hasData (nthRow g x) = true ∧ distM x m < acc.1
      · have hs : nearestStep g m acc x = (distM x m, some x) := by
          unfold nearestStep
          rw [if_neg hxm, if_pos hcond]
        rw [hs]
        apply ih (distM x m, some x) ?_ ?_ (Or.inr (by simp))
        · have h2 : distM x m < acc.1 := hcond.2
          omega
        · intro h2
          simp at h2
      · have hs : nearestStep g m acc x = acc := by
          unfold nearestStep
          rw [if_neg hxm, if_neg hcond]
        rw [hs]
        apply ih acc hle hnone
        rcases hor with ⟨j, hj, hjm, hjlt, hjd⟩ | h
        · rcases List.mem_cons.mp hj with h3 | h3
          · by_cases haccn : acc.2 = none
            · exfalso
              apply hcond
              refine ⟨h3 ▸ hjd, ?_⟩
              rw [hnone haccn]
              have hx12 : x < 12 := h3 ▸ hjlt
              unfold distM
              omega
            · exact Or.inr haccn
          · exact Or.inl ⟨j, h3, hjm, hjlt, hjd⟩
        · exact Or.inr h

/-- If any other month has data, the nearest-month search succeeds. -/
theorem findNearest_some (g : Grid) (m : ℕ) (hm : m < 12)
    (h : ∃ j, j ≠ m ∧ j < 12 ∧ hasData (nthRow g j) = true) :
    ∃ mm, findNearestMonth g m = some mm := by
  obtain ⟨j, hjm, hjlt, hjd⟩ := h
  have h2 := nearest_fold_some g m hm (List.range 12) (12, none) (le_refl 12) (fun _ => rfl)
    (Or.inl ⟨j, List.mem_range.mpr hjlt, hjm, hjlt, hjd⟩)
  exact Option.ne_none_iff_exists'.mp h2

/-! ### The empty-month fallback loop -/

/-- One fallback step keeps the number of rows. -/
theorem fallbackStep_length (g : Grid) (m : ℕ) :
    (monthFallbackStep g m).length = g.length := by
  unfold monthFallbackStep
  split
  · rfl
  · split
    · exact setRow_length g m _
    · rfl

/-- One fallback step preserves the all-or-nothing property: it only ever
copies an existing row. -/
theorem fallbackStep_aon (g : Grid) (m : ℕ) (h : allOrNothing g) :
    allOrNothing (monthFallbackStep g m) := by
  unfold monthFallbackStep
  split
  · exact h
  · split
    · rename_i mm hmm
      intro row hr hx
      rcases mem_setRow g m (nthRow g mm) row hr with h2 | h2
      · exact h row h2 hx
      · subst h2
        by_cases hmmlt : mm < g.length
        · exact h (nthRow g mm) (nthRow_mem g mm hmmlt) hx
        · rw [nthRow_oob g mm (le_of_not_lt hmmlt)] at hx
          obtain ⟨c, hc, _⟩ := hx
          simp at hc
    · exact h

/-- One fallback step never destroys data in any row. -/
theorem fallbackStep_mono (g : Grid) (m j : ℕ) (h : hasData (nthRow g j) = true) :
    hasData (nthRow (monthFallbackStep g m) j) = true := by
  unfold monthFallbackStep
  split
  · exact h
  · rename_i hnd
    split
    · rename_i mm hmm
      by_cases hjm : j = m
      · exact absurd (hjm ▸ h) hnd
      · rw [nthRow_setRow_ne g m j _ fun hh => hjm hh.symm]
        exact h
    · exact h

/-- After the fallback step at month `m`, row `m` has data, provided the
grid has data somewhere. -/
theorem fallbackStep_self (g : Grid) (m : ℕ) (hm : m < 12) (hlen : g.length = 12)
    (hdat : gridHasData g) : hasData (nthRow (monthFallbackStep g m) m) = true := by
  by_cases hmd : hasData (nthRow g m) = true
  · have hs : monthFallbackStep g m = g := by
      unfold monthFallbackStep
      rw [if_pos hmd]
    rw [hs]
    exact hmd
  · obtain ⟨j, hj, hjd⟩ := hdat
    have hjm : j ≠ m := fun hh => hmd (hh ▸ hjd)
    obtain ⟨mm, hmm⟩ := findNearest_some g m hm ⟨j, hjm, hj, hjd⟩
    have hsound := findNearest_sound g m mm hmm
    have hs : monthFallbackStep g m = setRow g m (nthRow g mm) := by
      unfold monthFallbackStep
      rw [if_neg hmd, hmm]
    rw [hs, nthRow_setRow_self g m _ (by rw [hlen]; exact hm)]
    exact hsound.1

/-- One fallback step preserves the presence of data. -/
theorem fallbackStep_dat (g : Grid) (m : ℕ) (hdat : gridHasData g) :
    gridHasData (monthFallbackStep g m) := by
  obtain ⟨j, hj, hjd⟩ := hdat
  exact ⟨j, hj, fallbackStep_mono g m j hjd⟩

/-- Main fold invariant of the fallback loop: after processing a list of
in-range months, each of them has data, and shape, all-or-nothing and
data-presence are preserved. -/
theorem fallback_fold (l : List ℕ) :
    ∀ (g : Grid), (∀ x ∈ l, x < 12) → g.length = 12 → allOrNothing g → gridHasData g →
      (l.foldl monthFallbackStep g).length = 12 ∧
      allOrNothing (l.foldl monthFallbackStep g) ∧
      gridHasData (l.foldl monthFallbackStep g) ∧
      (∀ j, hasData (nthRow g j) = true →
        hasData (nthRow (l.foldl monthFallbackStep g) j) = true) ∧
      (∀ j ∈ l, hasData (nthRow (l.foldl monthFallbackStep g) j) = true) := by
  induction l with
  | nil =>
    intro g _ hlen haon hdat
    exact ⟨hlen, haon, hdat, fun j hj => hj, fun j hj => by simp at hj⟩
  | cons x t ih =>
    intro g hl hlen haon hdat
    have hx12 : x < 12 := hl x (List.mem_cons_self x t)
    simp only [List.foldl_cons]
    have hlen2 : (monthFallbackStep g x).length = 12 := by
      rw [fallbackStep_length]
      exact hlen
    have haon2 := fallbackStep_aon g x haon
    have hdat2 := fallbackStep_dat g x hdat
    obtain ⟨ha, hb, hc, hmono, hmem⟩ := ih (monthFallbackStep g x)
      (fun y hy => hl y (List.mem_cons_of_mem x hy)) hlen2 haon2 hdat2
    refine ⟨ha, hb, hc, ?_, ?_⟩
    · intro j hj
      exact hmono j (fallbackStep_mono g x j hj)
    · intro j hj
      rcases List.mem_cons.mp hj with h3 | h3
      · subst h3
        exact hmono j (fallbackStep_self g j hx12 hlen hdat)
      · exact hmem j h3

/-- C1: for every non-empty sample set (prices are positive per the data
model), after sample placement, forward fill, backward fill and the
nearest-month fallback, every cell of the built grid is non-sentinel. -/
theorem c1_grid_fully_filled (samples : List Sample) (hne : samples ≠ [])
    (hpos : ∀ s ∈ samples, 0 < s.price) :
    ∀ row ∈ buildGrid samples, ∀ c ∈ row, c ≠ basePrice := by
  obtain ⟨hshape, hdat0⟩ := placeSamples_facts samples hpos
  have hdat1 : gridHasData (placeSamples samples) := hdat0 hne
  have hlen1 : (placeSamples samples).length = 12 := hshape.1
  have hlen2 : (fillMonths (placeSamples samples)).length = 12 := by
    unfold fillMonths
    rw [List.length_map]
    exact hlen1
  have haon2 : allOrNothing (fillMonths (placeSamples samples)) := fillMonths_aon _
  have hdat2 : gridHasData (fillMonths (placeSamples samples)) :=
    fillMonths_dat _ hlen1 hdat1
  obtain ⟨hlen3, haon3, _, _, hmem⟩ := fallback_fold (List.range 12)
    (fillMonths (placeSamples samples)) (fun x hx => List.mem_range.mp hx)
    hlen2 haon2 hdat2
  intro row hr
  unfold buildGrid monthFallback at hr
  obtain ⟨j, hj, hjr⟩ := mem_nthRow_exists _ row hr
  rw [hlen3] at hj
  have hdata_row := hmem j (List.mem_range.mpr hj)
  rw [hjr] at hdata_row
  exact haon3 row hr ((hasData_iff row).mp hdata_row)

set_option maxRecDepth 4000 in
/-- Witness for C1: the grid built from the single May sample has a
non-sentinel value at month 5, day 14. -/
theorem c1_witness : getEntry (nthRow (buildGrid [sampleMay]) 5) 14 ≠ basePrice := by
  have hmem1 : nthRow (buildGrid [sampleMay]) 5 ∈ buildGrid [sampleMay] := by decide
  have hmem2 : getEntry (nthRow (buildGrid [sampleMay]) 5) 14 ∈
      nthRow (buildGrid [sampleMay]) 5 := by decide
  exact c1_grid_fully_filled [sampleMay] (by decide) (by decide) _ hmem1 _ hmem2

end Finance3D
